import Mathlib

/-!
Shallow embedding of the ethersrv-866 DFS server (src/ethersrv.c, src/fs.c).

Strings are modelled as lists of bytes (`List Nat`); reading a C string at an
index past its end yields the NUL byte 0, which models both the terminator and
the zeroed tail of the fixed buffers the server uses.  Bounded C loops are
rendered as structurally recursive functions on an explicit iteration-count
argument so that every definition evaluates inside the kernel; the count is
always chosen so that the loop's own exit condition, not the count, stops the
recursion.  Host-filesystem calls (stat/readdir/unlink/rename/truncate/
statvfs) are modelled over an explicit association-list filesystem `HostFs`;
file modification times are carried as already-DOS-encoded 32-bit stamps
(the localtime conversion is environment dependent and out of the modelled
scope).
-/

set_option maxRecDepth 10000

/-- Byte of a C string at index `j`: past-the-end reads give NUL (0). -/
def getb (s : List Nat) (j : Nat) : Nat := s.getD j 0

/-- Convert a Lean string literal to its byte list (used only for concrete
inputs in theorems). -/
def bytes (s : String) : List Nat := s.data.map Char.toNat

/-- fs.c `upchar`: uppercase a single byte ('a'..'z' is 97..122). -/
def upchar (c : Nat) : Nat := if 97 ≤ c ∧ c ≤ 122 then c - 32 else c

/-- ethersrv.c `lochar`: lowercase a single byte ('A'..'Z' is 65..90). -/
def lochar (c : Nat) : Nat := if 65 ≤ c ∧ c ≤ 90 then c + 32 else c

/-- ethersrv.c `lostring` with n = -1: lowercase the whole string. -/
def lostring (s : List Nat) : List Nat := s.map lochar

/-- ethersrv.c `charreplace`: replace every `rep` byte by `repby`. -/
def charreplace (rep repby : Nat) (s : List Nat) : List Nat :=
  s.map (fun c => if c = rep then repby else c)

/-! ## FCB utilities (fs.c `filename2fcb`, `matchfile2mask`) -/

/-- The leading-dot loop of `filename2fcb` (`for (i = 0; i < 8; i++)` with
break on a non-dot byte): the first argument counts the iterations left until
`i` reaches 8. -/
def leadDotsF (s : List Nat) : Nat → Nat → Nat
  | 0, i => i
  | fuel + 1, i => if getb s i = 46 then leadDotsF s fuel (i + 1) else i

/-- Index of the first of the first 8 bytes of `s` that is not '.' (46). -/
def leadDots (s : List Nat) : Nat := leadDotsF s 8 0

/-- The inner `while (s[j] == ' ') j++;` of `filename2fcb`.  The loop stops at
the latest at the NUL byte after the end of `s`, so `s.length + 1` iterations
always suffice. -/
def skipSpacesF (s : List Nat) : Nat → Nat → Nat
  | 0, j => j
  | fuel + 1, j => if getb s j = 32 then skipSpacesF s fuel (j + 1) else j

/-- First index `≥ j` whose byte is not a space (32). -/
def skipSpaces (s : List Nat) (j : Nat) : Nat := skipSpacesF s (s.length + 1) j

/-- The base-name fill loop of `filename2fcb`: starting at output index `i`
and input index `j`, copy up to `8 - i` bytes, stopping at '.' (46) or NUL,
skipping runs of spaces before each copied byte.  Returns the filled block and
the final value of `i`. -/
def fillBaseF (s : List Nat) : Nat → List Nat → Nat → Nat → List Nat × Nat
  | 0, d, i, _ => (d, i)
  | fuel + 1, d, i, j =>
    if getb s j = 46 ∨ getb s j = 0 then (d, i)
    else
      let j' := skipSpaces s j
      fillBaseF s fuel (d.set i (upchar (getb s j'))) (i + 1) (j' + 1)

/-- Base-name fill of `filename2fcb` from output index `i`, input index `j`. -/
def fillBase (s : List Nat) (d : List Nat) (i j : Nat) : List Nat × Nat :=
  fillBaseF s (8 - i) d i j

/-- The `for (; *s != '.' && *s != 0; s++);` scan of `filename2fcb`.  The scan
stops at the latest at the NUL byte after the end of `s`. -/
def ffwdF (s : List Nat) : Nat → Nat → Nat
  | 0, j => j
  | fuel + 1, j =>
    if getb s j = 46 ∨ getb s j = 0 then j else ffwdF s fuel (j + 1)

/-- First index `≥ j` whose byte is '.' (46) or NUL. -/
def ffwd (s : List Nat) (j : Nat) : Nat := ffwdF s (s.length + 1) j

/-- The extension fill loop of `filename2fcb`: copy up to 3 bytes starting at
input index `p`, stopping at '.', NUL or space. -/
def fillExtF (s : List Nat) (p : Nat) : Nat → List Nat → Nat → List Nat
  | 0, d, _ => d
  | fuel + 1, d, k =>
    if getb s (p + k) = 46 ∨ getb s (p + k) = 0 ∨ getb s (p + k) = 32 then d
    else fillExtF s p fuel (d.set (8 + k) (upchar (getb s (p + k)))) (k + 1)

/-- fs.c `filename2fcb`: render a filename into an 11-byte space-padded FCB
block (8-byte base, 3-byte extension). -/
def filename2fcb (s : List Nat) : List Nat :=
  let d0 := List.replicate 11 32
  let i0 := leadDots s
  let d1 := (List.range i0).foldl (fun d k => d.set k 46) d0
  let r := fillBase s d1 i0 i0
  let p := ffwd s r.2
  if getb s p = 0 then r.1
  else fillExtF s (p + 1) 3 r.1 0

/-- fs.c `matchfile2mask`: compare an 11-byte FCB name against an 11-byte FCB
mask, case-insensitively, '?' (63) in the mask matching anything.  Returns 0
when matching, -1 otherwise (as the C function does). -/
def matchfile2mask (msk fil : List Nat) : Int :=
  if (List.range 11).all
      (fun i => upchar (getb fil i) = upchar (getb msk i) ∨ getb msk i = 63)
  then 0 else -1


/-! ## File properties and `findfile` (fs.c) -/

/-- fs.c `struct fileprops`: DOS attribute byte, size, DOS-packed timestamp
and 11-byte FCB name. -/
structure fileprops where
  fattr : Nat
  fsize : Nat
  ftime : Nat
  fcbname : List Nat
deriving DecidableEq, Repr

/-- An all-zero `fileprops`, as produced by `calloc`/`memset`. -/
def zeroProps : fileprops := ⟨0, 0, 0, []⟩

/-- The attribute filter of fs.c `findfile` (lines 349-353): a mask of exactly
0x08 demands the VOLUME bit; any other mask admits an entry iff
`(attr | (fattr & 0x16)) == attr`. -/
def attrOk (attr fattr : Nat) : Bool :=
  if attr = 8 then fattr &&& 8 ≠ 0
  else (attr ||| (fattr &&& 0x16)) = attr

/-- The search loop of fs.c `findfile` over a directory listing: `n` is the
1-based position counter, entries at positions `≤ nth` are skipped, '.'
entries are skipped when the directory is the drive root, then the FCB mask
and the attribute filter are applied; the first hit is returned together with
its 1-based position. -/
def findfileLoop (tmpl : List Nat) (attr : Nat) (isrt : Bool) (nth : Nat) :
    List fileprops → Nat → Option (fileprops × Nat)
  | [], _ => none
  | p :: rest, n =>
    if n + 1 ≤ nth then findfileLoop tmpl attr isrt nth rest (n + 1)
    else if getb p.fcbname 0 = 46 ∧ isrt then findfileLoop tmpl attr isrt nth rest (n + 1)
    else if ¬ (matchfile2mask tmpl p.fcbname = 0) then findfileLoop tmpl attr isrt nth rest (n + 1)
    else if ¬ attrOk attr p.fattr then findfileLoop tmpl attr isrt nth rest (n + 1)
    else some (p, n + 1)

/-- fs.c `findfile` restricted to a fixed (unchanged) cached directory
listing: search for the first admissible entry after position `nth`.  On a
hit the C function stores the hit's position back into `*nth` and copies the
entry's properties out; here both are returned. -/
def findfileList (dl : List fileprops) (tmpl : List Nat) (attr : Nat)
    (isrt : Bool) (nth : Nat) : Option (fileprops × Nat) :=
  findfileLoop tmpl attr isrt nth dl 0

/-- An entry passes all three rejection tests of the `findfile` loop. -/
def admissible (isrt : Bool) (tmpl : List Nat) (attr : Nat) (p : fileprops) : Prop :=
  ¬ (getb p.fcbname 0 = 46 ∧ isrt) ∧ matchfile2mask tmpl p.fcbname = 0 ∧ attrOk attr p.fattr

instance (isrt : Bool) (tmpl : List Nat) (attr : Nat) (p : fileprops) :
    Decidable (admissible isrt tmpl attr p) := by unfold admissible; infer_instance

/-- The admissible entries of a listing paired with their 1-based positions
(`n` is the position offset), in listing order. -/
def matchList (isrt : Bool) (tmpl : List Nat) (attr : Nat) :
    List fileprops → Nat → List (fileprops × Nat)
  | [], _ => []
  | p :: rest, n =>
    if admissible isrt tmpl attr p then (p, n + 1) :: matchList isrt tmpl attr rest (n + 1)
    else matchList isrt tmpl attr rest (n + 1)

/-- The FINDFIRST/FINDNEXT walk over a fixed cached listing: start with
position 0 (FINDFIRST), and feed the position returned by each successful
call into the next call (FINDNEXT), until the first miss (the AX = 0x12
reply).  Collect the entries and positions returned on the way.  The listing
is exhausted after at most `dl.length + 1` calls. -/
def ffChainF (dl : List fileprops) (tmpl : List Nat) (attr : Nat) (isrt : Bool) :
    Nat → Nat → List (fileprops × Nat)
  | 0, _ => []
  | fuel + 1, nth =>
    match findfileList dl tmpl attr isrt nth with
    | none => []
    | some (p, m) => (p, m) :: ffChainF dl tmpl attr isrt fuel m

/-- All results produced by a FINDFIRST followed by repeated FINDNEXT calls
over an unchanged listing. -/
def ffChain (dl : List fileprops) (tmpl : List Nat) (attr : Nat) (isrt : Bool) :
    List (fileprops × Nat) :=
  ffChainF dl tmpl attr isrt (dl.length + 1) 0

/-! ## Handle cache (fs.c `fsdb`, `getitemss`, `sstoitem`) -/

/-- fs.c `struct sfsdb`: one slot of the 65,536-entry handle cache.  A `none`
name marks a free slot; `dirlist` is the cached directory listing attached by
FindFirst. -/
structure Slot where
  name : Option (List Nat)
  lastused : Int
  dirlist : List fileprops

/-- A zeroed slot, as produced by `memset(..., 0, sizeof(struct sfsdb))`. -/
def emptySlot : Slot := ⟨none, 0, []⟩

/-- The handle table: fs.c's `fsdb[65536]` array (only indices < 65536 are
ever used). -/
def Fsdb : Type := Nat → Slot

/-- Point update of the handle table. -/
def setSlot (db : Fsdb) (i : Nat) (v : Slot) : Fsdb :=
  fun k => if k = i then v else db k

/-- Result of the scan loop of `getitemss`: either the matching slot was
found (and its `lastused` refreshed), or the loop finished with the recorded
first free slot and oldest slot. -/
inductive ScanResult where
  | found (id : Nat) (db : Fsdb)
  | done (firstfree oldest : Nat) (db : Fsdb)

/-- The scan loop of fs.c `getitemss` (`for (i = 0; i < 0xffffu; i++)`): the
first argument counts the remaining iterations (65535 - i).  A name match
returns immediately; otherwise slots unused for more than 3600 seconds are
freed, the first free slot is remembered in `firstfree` (sentinel 0xffff =
none yet), and the least recently used slot in `oldest`. -/
def scanF (f : List Nat) (now : Int) :
    Nat → Fsdb → Nat → Nat → Nat → ScanResult
  | 0, db, _, firstfree, oldest => .done firstfree oldest db
  | fuel + 1, db, i, firstfree, oldest =>
    if (db i).name = some f then
      .found i (setSlot db i { db i with lastused := now })
    else
      let db' := if now - (db i).lastused > 3600 then setSlot db i emptySlot else db
      let ff' := if firstfree = 0xffff ∧ (db' i).name = none then i else firstfree
      let old' :=
        if ¬ (firstfree = 0xffff ∧ (db' i).name = none) ∧
            (db' oldest).lastused > (db' i).lastused then i else oldest
      scanF f now fuel db' (i + 1) ff' old'

/-- fs.c `getitemss`: intern pathname `f` in the handle cache at time `now`
and return its 16-bit id together with the updated table.  When no slot
matches, the first free slot (or, failing that, the oldest slot, whose
contents are dropped) is registered with name `f`.  The C function returns
0xffff only when `strdup` fails; allocation failure is outside the modelled
scope. -/
def getitemss (db : Fsdb) (f : List Nat) (now : Int) : Nat × Fsdb :=
  match scanF f now 65535 db 0 0xffff 0 with
  | .found i db' => (i, db')
  | .done firstfree oldest db' =>
    let idx := if firstfree = 0xffff then oldest else firstfree
    let db'' := if firstfree = 0xffff then setSlot db' oldest emptySlot else db'
    (idx, setSlot db'' idx { name := some f, lastused := now, dirlist := [] })

/-- fs.c `sstoitem`: the pathname registered under id `ss` (`none` models the
NULL pointer of a free slot). -/
def sstoitem (db : Fsdb) (ss : Nat) : Option (List Nat) := (db ss).name

/-! ## Host filesystem model

The host side (Linux) is modelled as an association list from absolute
pathnames to entries.  Lookup is by exact byte equality, which models the
case-sensitive host filesystem.  `stat` performs the kernel's component-wise
resolution of `.` and `..` and of trailing slashes, so paths such as
`dir/.` built by the server resolve as they do on the host. -/

/-- One host filesystem object: a directory or a regular file with contents,
a DOS-encoded modification stamp and the DOS attributes its FAT inode
carries (consulted only on FAT-backed drives). -/
structure HostEntry where
  isDir : Bool
  content : List Nat
  mtimeDos : Nat
  fatAttr : Nat
deriving DecidableEq, Repr

/-- The host filesystem: named objects plus the `statvfs` numbers (total and
free bytes) of the backing device. -/
structure HostFs where
  entries : List (List Nat × HostEntry)
  totalBytes : Nat
  freeBytes : Nat
deriving DecidableEq, Repr

/-- Split a pathname into its '/'-separated components (empty components,
i.e. repeated or trailing slashes, produce empty strings that the normalizer
drops). -/
def splitSlash : List Nat → List Nat → List (List Nat)
  | [], cur => [cur.reverse]
  | c :: r, cur => if c = 47 then cur.reverse :: splitSlash r [] else splitSlash r (c :: cur)

/-- Kernel-style path normalization: drop empty and `.` components, let `..`
remove the preceding component. -/
def normComponents (cs : List (List Nat)) : List (List Nat) :=
  cs.foldl
    (fun acc c =>
      if c = [] ∨ c = [46] then acc
      else if c = [46, 46] then acc.dropLast
      else acc ++ [c]) []

/-- Rebuild a pathname from components, with a leading slash before each. -/
def joinPath (cs : List (List Nat)) : List Nat :=
  cs.foldl (fun acc c => acc ++ 47 :: c) []

/-- Canonical form of a pathname, for `stat`-style lookups. -/
def normPath (p : List Nat) : List Nat :=
  joinPath (normComponents (splitSlash p []))

/-- The stat call: look the canonicalized path up in the filesystem (entries are
stored under canonical names). -/
def statM (fs : HostFs) (p : List Nat) : Option HostEntry :=
  (fs.entries.find? (fun e => e.1 = normPath p)).map (fun e => e.2)

/-- Point update of a host filesystem entry. -/
def updateEntry (fs : HostFs) (p : List Nat) (v : HostEntry) : HostFs :=
  { fs with entries := fs.entries.map (fun e => if e.1 = normPath p then (e.1, v) else e) }

/-- The immediate children of directory `d`: entries stored as
`d/<name>` with a slashless name, listed in storage order.  Models the
`readdir` iteration order. -/
def childrenOf (fs : HostFs) (d : List Nat) : List (List Nat × HostEntry) :=
  fs.entries.filterMap
    (fun e =>
      if e.1.take (d.length + 1) = d ++ [47] ∧
          (e.1.drop (d.length + 1)) ≠ [] ∧
          ¬ (e.1.drop (d.length + 1)).contains 47
      then some (e.1.drop (d.length + 1), e.2) else none)

/-- A directory entry for `.` / `..` as `readdir` reports them. -/
def dotEntry : HostEntry := ⟨true, [], 0, 0⟩

/-- The opendir call plus the `readdir` loop: fails unless `d` names a directory;
otherwise returns the listing, `.` and `..` first, as (name, entry) pairs. -/
def opendirM (fs : HostFs) (d : List Nat) : Option (List (List Nat × HostEntry)) :=
  match statM fs d with
  | some e =>
    if e.isDir then
      some (([46], dotEntry) :: ([46, 46], dotEntry) :: childrenOf fs (normPath d))
    else none
  | none => none

/-- The filename-part scan of fs.c `getitemattr`: `fname` is moved past every
'/' or '\' that is followed by a further byte. -/
def bnAux : List Nat → List Nat → List Nat
  | fname, [] => fname
  | fname, c :: rest =>
    bnAux (if (c = 47 ∨ c = 92) ∧ rest ≠ [] then rest else fname) rest

/-- The trailing component of a pathname, as fs.c `getitemattr` computes it. -/
def basenameOf (p : List Nat) : List Nat := bnAux p p

/-- fs.c `getitemattr`: DOS attributes and file properties of path `i`.
Returns 0xff when `stat` fails, 16 (DIR) for directories, 0x20 (ARCHIVE) for
files on non-FAT drives — in which case `fprops.fattr` keeps its zeroed
value, exactly as in the C code — and the FAT attributes otherwise (the
`FAT_IOCTL_GET_ATTRIBUTES` call is modelled as succeeding with the entry's
stored attributes).  The returned `fileprops` models the struct the C
function fills; on `stat` failure the caller's zero-initialized struct is
left untouched, which `zeroProps` models. -/
def getitemattrM (fs : HostFs) (i : List Nat) (fatflag : Bool) : Nat × fileprops :=
  match statM fs i with
  | none => (0xff, zeroProps)
  | some e =>
    let base : fileprops :=
      { fattr := 0, fsize := 0, ftime := e.mtimeDos,
        fcbname := filename2fcb (basenameOf i) }
    if e.isDir then (16, { base with fattr := 16 })
    else
      let base := { base with fsize := e.content.length }
      if fatflag then (e.fatAttr, { base with fattr := e.fatAttr })
      else (0x20, base)

/-- fs.c `setitemattr`: set the FAT attribute byte of a path (the ioctl is
modelled as succeeding whenever the file exists). -/
def setitemattrM (fs : HostFs) (i : List Nat) (fattr : Nat) : Int × HostFs :=
  match statM fs i with
  | none => (-1, fs)
  | some e => (0, updateEntry fs i { e with fatAttr := fattr })

/-- The unlink call: remove a non-directory entry; fails if the path is missing or
names a directory. -/
def unlinkM (fs : HostFs) (p : List Nat) : Option HostFs :=
  match statM fs p with
  | none => none
  | some e =>
    if e.isDir then none
    else some { fs with entries := fs.entries.filter (fun q => ¬ q.1 = normPath p) }

/-- The call `truncate(path, offset)`: cut or zero-extend a regular file's contents. -/
def truncateM (fs : HostFs) (p : List Nat) (offset : Nat) : Option HostFs :=
  match statM fs p with
  | none => none
  | some e =>
    if e.isDir then none
    else some (updateEntry fs p
      { e with content := e.content.take offset ++ List.replicate (offset - e.content.length) 0 })

/-- fs.c `diskinfo`: the `statvfs` numbers of the backing device (total
bytes, free bytes); the call is modelled as succeeding. -/
def diskinfoM (fs : HostFs) : Nat × Nat := (fs.totalBytes, fs.freeBytes)

/-- fs.c `gendirlist`: list the directory registered under handle-cache slot
name `nm` and build a `fileprops` record per entry (including `.` and `..`)
via `getitemattr` on `nm/<entry>`.  `none` models the `opendir` failure
(return value -1). -/
def gendirlistM (fs : HostFs) (nm : List Nat) (fatflag : Bool) :
    Option (List fileprops) :=
  (opendirM fs nm).map
    (fun listing => listing.map (fun e => (getitemattrM fs (nm ++ 47 :: e.1) fatflag).2))

/-- The flag bits of fs.h used by `findfile` calls. -/
def FFILE_ISROOT : Nat := 1
def FFILE_ISFAT : Nat := 2

/-- fs.c `findfile` proper: when `nth = 0` (FindFirst) or no listing is
cached, regenerate the cached listing from the host filesystem, then run the
search loop.  Returns the hit (if any) and the updated handle table. -/
def findfileM (fs : HostFs) (db : Fsdb) (dss : Nat) (tmpl : List Nat)
    (attr : Nat) (nth : Nat) (flags : Nat) : Option (fileprops × Nat) × Fsdb :=
  let regen := nth = 0 ∨ (db dss).dirlist = []
  let db' :=
    if regen then
      match gendirlistM fs ((db dss).name.getD []) (flags &&& FFILE_ISFAT ≠ 0) with
      | none => none
      | some dl => some (setSlot db dss { db dss with dirlist := dl })
    else some db
  match db' with
  | none => (none, db)
  | some db' =>
    (findfileList (db' dss).dirlist tmpl attr (flags &&& FFILE_ISROOT ≠ 0) nth, db')

/-- fs.c `readfile`: read `len` bytes of the file registered under slot `fss`
starting at `offset`.  `fopen` fails (-1) if the slot is free or the path is
missing; reading a directory yields 0 bytes, and short reads at EOF are
normal.  Returns the bytes read. -/
def readfileM (fs : HostFs) (db : Fsdb) (fss : Nat) (offset len : Nat) :
    Int × List Nat :=
  match (db fss).name with
  | none => (-1, [])
  | some fname =>
    match statM fs fname with
    | none => (-1, [])
    | some e =>
      if e.isDir then (0, [])
      else
        let data := (e.content.drop offset).take len
        (data.length, data)

/-- fs.c `writefile`: write `data` into the file registered under slot `fss`
at `offset`.  A zero-length write means truncate/extend to `offset`; a
failing `truncate` is only logged and 0 is returned regardless.  A regular
write opens the file "r+b" (fails if missing or a directory), zero-fills any
seek hole and overwrites in place. -/
def writefileM (fs : HostFs) (db : Fsdb) (fss : Nat) (offset : Nat)
    (data : List Nat) : Int × HostFs :=
  match (db fss).name with
  | none => (-1, fs)
  | some fname =>
    if data.length = 0 then
      match truncateM fs fname offset with
      | some fs' => (0, fs')
      | none => (0, fs)
    else
      match statM fs fname with
      | none => (-1, fs)
      | some e =>
        if e.isDir then (-1, fs)
        else
          let padded := e.content ++ List.replicate (offset - e.content.length) 0
          let content' :=
            padded.take offset ++ data ++ padded.drop (offset + data.length)
          (data.length, updateEntry fs fname { e with content := content' })

/-- fs.c `getfopsize`: size of the file registered under slot `fss`, via
`getitemattr` with a zero fat flag (directories report size 0). -/
def getfopsizeM (fs : HostFs) (db : Fsdb) (fss : Nat) : Int :=
  match (db fss).name with
  | none => -1
  | some fname =>
    let r := getitemattrM fs fname false
    if r.1 = 0xff then -1 else (r.2.fsize : Int)

/-- The canonical parent directory of a pathname. -/
def parentPath (p : List Nat) : List Nat :=
  joinPath ((normComponents (splitSlash p [])).dropLast)

/-- fs.c `makedir`, i.e. `mkdir(d, 0)`: create directory `d`; fails if `d`
already exists or its parent is not an existing directory. -/
def makedirM (fs : HostFs) (d : List Nat) : Int × HostFs :=
  match statM fs d with
  | some _ => (-1, fs)
  | none =>
    if normComponents (splitSlash d []) = [] then (-1, fs)
    else
      match statM fs (parentPath d) with
      | some pe =>
        if pe.isDir then
          (0, { fs with entries := fs.entries ++ [(normPath d, ⟨true, [], 0, 0⟩)] })
        else (-1, fs)
      | none => (-1, fs)

/-- fs.c `remdir`, i.e. `rmdir(d)`: remove directory `d`; fails if it is
missing, not a directory, or not empty. -/
def remdirM (fs : HostFs) (d : List Nat) : Int × HostFs :=
  match statM fs d with
  | none => (-1, fs)
  | some e =>
    if ¬ e.isDir then (-1, fs)
    else if ¬ childrenOf fs (normPath d) = [] then (-1, fs)
    else (0, { fs with entries := fs.entries.filter (fun q => ¬ q.1 = normPath d) })

/-- fs.c `changedir`, i.e. `chdir(d)`: used by the server purely as an
existence test for directories (all server paths are absolute, so the
process-wide working directory it sets is never consulted). -/
def changedirM (fs : HostFs) (d : List Nat) : Int :=
  match statM fs d with
  | some e => if e.isDir then 0 else -1
  | none => -1

/-- fs.c `renfile`, i.e. `rename(fn1, fn2)`: moves a file, replacing an
existing destination file (directory moves keep only the directory entry
itself in this model; the server renames single items). -/
def renfileM (fs : HostFs) (fn1 fn2 : List Nat) : Int × HostFs :=
  match statM fs fn1 with
  | none => (-1, fs)
  | some e =>
    (0, { fs with entries :=
      (fs.entries.filter (fun q => ¬ q.1 = normPath fn1 ∧ ¬ q.1 = normPath fn2))
        ++ [(normPath fn2, e)] })

/-- fs.c `createfile`: `fopen(d/fn, "wb")` — create or truncate a regular
file, set its FAT attributes when the drive is FAT-backed, and reload its
properties.  `fopen` fails when the parent is missing or the path names a
directory.  A freshly created file carries a zero modification stamp (the
current time is outside the modelled scope). -/
def createfileM (fs : HostFs) (d fn : List Nat) (attr : Nat) (fatflag : Bool) :
    Int × fileprops × HostFs :=
  let fullpath := d ++ 47 :: fn
  let opened :=
    match statM fs fullpath with
    | some e => if e.isDir then none else some (updateEntry fs fullpath { e with content := [] })
    | none =>
      match statM fs (parentPath fullpath) with
      | some pe =>
        if pe.isDir then
          some { fs with entries := fs.entries ++ [(normPath fullpath, ⟨false, [], 0, 0⟩)] }
        else none
      | none => none
  match opened with
  | none => (-1, zeroProps, fs)
  | some fs1 =>
    let fs2 := if fatflag then (setitemattrM fs1 fullpath attr).2 else fs1
    let r := getitemattrM fs2 fullpath fatflag
    (0, r.2, fs2)

/-- The pattern scan at the head of fs.c `delfiles`: records whether any byte
is '?' (63) and the index of the last '/' (47), starting from 0. -/
def delScan : List Nat → Nat → Bool → Nat → Bool × Nat
  | [], _, ispattern, fileoffset => (ispattern, fileoffset)
  | c :: r, i, ispattern, fileoffset =>
    delScan r (i + 1) (ispattern ∨ c = 63) (if c = 47 then i else fileoffset)

/-- fs.c `delfiles`: remove all files matching `pattern`.  A plain path is
unlinked directly (1 on success, -1 on failure).  A pattern containing '?' is
split at its last '/' into directory and mask; every non-directory entry of
the directory whose FCB name matches the mask's FCB is unlinked (failures
are only logged), and 0 is returned; -1 if the directory cannot be opened. -/
def delfilesM (fs : HostFs) (pattern : List Nat) : Int × HostFs :=
  let scanned := delScan pattern 0 false 0
  if ¬ scanned.1 then
    match unlinkM fs pattern with
    | some fs' => (1, fs')
    | none => (-1, fs)
  else
    let dir := pattern.take scanned.2
    let fil := pattern.drop (scanned.2 + 1)
    let filfcb := filename2fcb fil
    match opendirM fs dir with
    | none => (-1, fs)
    | some listing =>
      let fs' := listing.foldl
        (fun acc e =>
          if e.2.isDir then acc
          else if matchfile2mask filfcb (filename2fcb e.1) = 0 then
            match unlinkM acc (dir ++ 47 :: e.1) with
            | some acc' => acc'
            | none => acc
          else acc) fs
      (0, fs')

/-- fs.c `isroot` (ethersrv.c lines 175-190): after skipping `root.length`
bytes of `dir` and any following slashes, `dir` refers to the drive root iff
no further '/' occurs. -/
def isrootM (root dir : List Nat) : Bool :=
  let d := dir.drop (min root.length dir.length)
  let d := d.dropWhile (fun c => c = 47)
  ¬ d.contains 47


/-! ## Short-to-long resolver (fs.c `shorttolong`) -/

/-- The `strtok(src, "/")` iteration: the '/'-separated tokens of a string, with
empty tokens (from repeated separators) dropped, as `strtok` does. -/
def strtokAux : List Nat → List Nat → List (List Nat)
  | [], cur => if cur = [] then [] else [cur.reverse]
  | c :: r, cur =>
    if c = 47 then
      if cur = [] then strtokAux r [] else cur.reverse :: strtokAux r []
    else strtokAux r (c :: cur)

/-- All `strtok` tokens of a string with separator '/'. -/
def strtokSlash (s : List Nat) : List (List Nat) := strtokAux s []

/-- The inner `readdir` scan of `shorttolong`: find the first directory entry
(skipping `.` and `..`) whose FCB rendering equals `tofcb`; when the current
token is not the last one (`hasNext`), the entry must be a directory. -/
def stlFind (hasNext : Bool) (tofcb : List Nat) :
    List (List Nat × HostEntry) → Option (List Nat × HostEntry)
  | [] => none
  | e :: rest =>
    if e.1 = [46] ∨ e.1 = [46, 46] then stlFind hasNext tofcb rest
    else if filename2fcb e.1 = tofcb then
      if hasNext ∧ ¬ e.2.isDir then stlFind hasNext tofcb rest
      else some e
    else stlFind hasNext tofcb rest

/-- The token loop of `shorttolong`: `dst` is the host path built so far
(with a trailing '/' before each pending component).  On a missing component
the raw token is still appended to `dst` (used by MKDIR) and -1 is
returned. -/
def stlLoop (fs : HostFs) : List (List Nat) → List Nat → Int × List Nat
  | [], dst => (0, dst)
  | t :: rest, dst =>
    match opendirM fs dst with
    | none => (-1, dst)
    | some listing =>
      match stlFind (¬ rest = []) (filename2fcb t) listing with
      | none => (-1, dst ++ t)
      | some e =>
        stlLoop fs rest (dst ++ e.1 ++ if ¬ rest = [] then [47] else [])

/-- fs.c `shorttolong`: resolve the DFS-style path `src` (which must extend
`root` with a '/'-prefixed remainder; the C code asserts the prefix) against
the host filesystem, component by component, by FCB-name equality.  Returns
the C result code and the output buffer: the fully resolved host path on 0,
or the partial path (with the unresolved component appended raw) on -1. -/
def shorttolongM (fs : HostFs) (src root : List Nat) : Int × List Nat :=
  let s1 := src.drop root.length
  let dst := root ++ [47]
  if ¬ getb s1 0 = 47 then (-1, dst)
  else stlLoop fs (strtokSlash (s1.drop 1)) dst

/-! ## The subfunction dispatcher (ethersrv.c `process`) -/

/-- A `memcpy`-style read of `n` bytes from a buffer (reads past the end of the
modelled data give the zeroed tail of the fixed-size C buffers). -/
def memN (l : List Nat) (n : Nat) : List Nat := (List.range n).map (fun k => getb l k)

/-- The `le16toh` read of the 16-bit little-endian word at byte offset `off`. -/
def le16 (l : List Nat) (off : Nat) : Nat := getb l off + 256 * getb l (off + 1)

/-- The `le32toh` read of the 32-bit little-endian word at byte offset `off`. -/
def le32 (l : List Nat) (off : Nat) : Nat :=
  getb l off + 256 * getb l (off + 1) + 65536 * getb l (off + 2) +
    16777216 * getb l (off + 3)

/-- The `htole16` write: the two bytes of a 16-bit little-endian word. -/
def le16b (x : Nat) : List Nat := [x % 256, x / 256 % 256]

/-- The `htole32` write: the four bytes of a 32-bit little-endian word. -/
def le32b (x : Nat) : List Nat :=
  [x % 256, x / 256 % 256, x / 65536 % 256, x / 16777216 % 256]

/-- Reinterpret a 32-bit unsigned value as the signed `int32_t` the SKFMEND
handler uses. -/
def int32Of (x : Nat) : Int := if x < 2147483648 then (x : Int) else (x : Int) - 4294967296

/-- The index scan of ethersrv.c `explodepath`: the index of the last '/' or
'\' byte (0 when there is none). -/
def lastSepScan : List Nat → Nat → Nat → Nat
  | [], _, lb => lb
  | c :: r, i, lb => lastSepScan r (i + 1) (if c = 92 ∨ c = 47 then i else lb)

/-- ethersrv.c `explodepath`: split a `X:\DIR\FILE????.???` search path into
the directory part (up to and including the last separator) and the
file/mask part. -/
def explodepath (source : List Nat) : List Nat × List Nat :=
  let source := if getb source 1 = 58 then source.drop 2 else source
  let lb := lastSepScan source 0 0
  (source.take (lb + 1), source.drop (lb + 1))

/-- The suffix of `src` after its last '/' byte, when any ('strrchr'). -/
def strrchrSuffix : List Nat → Option (List Nat)
  | [] => none
  | c :: r =>
    match strrchrSuffix r with
    | some s => some s
    | none => if c = 47 then some r else none

/-- ethersrv.c `copy_after_last_slash`: overwrite `dst` with everything after
the last '/' of `src`; `dst` is kept when `src` has no slash. -/
def copyAfterLastSlash (dst src : List Nat) : List Nat :=
  match strrchrSuffix src with
  | some s => s
  | none => dst

/-- One slot of the ethersrv.c answer cache (`struct struct_answcache`): the
whole reply frame last sent to a client (its first 6 bytes are the client's
MAC), the time it was sent, and its length (0 = no valid reply cached). -/
structure AnswSlot where
  frame : List Nat
  timestamp : Int
  len : Nat

/-- The full mutable server state the dispatcher touches: the handle cache
(with its cached directory listings) and the host filesystem. -/
structure SrvState where
  db : Fsdb
  fs : HostFs

/-- The idempotency test of `process` (ethersrv.c line 244): same sequence
byte at offset 57, cached bytes 0..5 equal to the request's source MAC
(bytes 6..11), and a non-empty cached reply. -/
def cacheHit (answer : AnswSlot) (reqbuff : List Nat) : Bool :=
  (getb answer.frame 57 == getb reqbuff 57) &&
    ((List.range 6).all fun k => getb answer.frame k == getb reqbuff (6 + k)) &&
    (answer.len != 0)

/-- The answer-cache update the main loop performs after `process` returns
(ethersrv.c lines 1190-1195). -/
def cacheUpdate (answer : AnswSlot) (len : Int) (now : Int) : AnswSlot :=
  if 0 ≤ len then { answer with len := len.toNat, timestamp := now }
  else { answer with len := 0 }

/-- The DISKSPACE branch (query 0x0C): clamp total and free bytes to
2 GiB - 1, shift to 32-KiB cluster counts, and report AX=1 (media id and
sectors per cluster), BX=total clusters, CX=32768 bytes per sector, DX=free
clusters. -/
def handleDiskspace (fs : HostFs) : Nat × List Nat :=
  let r := diskinfoM fs
  let diskspace := if r.1 ≥ 2147483648 then 2147483647 else r.1
  let freespace := if r.2 ≥ 2147483648 then 2147483647 else r.2
  let diskspace := diskspace >>> 15
  let freespace := freespace >>> 15
  (1, le16b diskspace ++ le16b 32768 ++ le16b freespace)

/-- The READFILE branch (query 0x08, 8-byte payload): u32 offset, u16 handle,
u16 length; a failing `readfile` yields AX=5 ("access denied"). -/
def handleRead (st : SrvState) (payload : List Nat) : Nat × List Nat × SrvState :=
  let offset := le32 payload 0
  let fileid := le16 payload 4
  let len := le16 payload 6
  let r := readfileM st.fs st.db fileid offset len
  if r.1 < 0 then (5, [], st) else (0, r.2, st)

/-- The WRITEFILE branch (query 0x09, payload ≥ 6 bytes): u32 offset, u16
handle, then the data; replies the number of bytes written, or AX=5 when
`writefile` fails. -/
def handleWrite (st : SrvState) (payload : List Nat) : Nat × List Nat × SrvState :=
  let offset := le32 payload 0
  let fileid := le16 payload 4
  let data := payload.drop 6
  let r := writefileM st.fs st.db fileid offset data
  if r.1 < 0 then (5, [], st)
  else (0, le16b r.1.toNat, { st with fs := r.2 })

/-- The 24-byte FINDFIRST/FINDNEXT hit reply: attribute, 11-byte FCB name,
DOS time, size, directory id and position. -/
def serializeFind (p : fileprops) (dirss fpos : Nat) : List Nat :=
  p.fattr % 256 :: memN p.fcbname 11 ++ le32b p.ftime ++ le32b p.fsize ++
    le16b dirss ++ le16b fpos

/-- The FINDFIRST branch (query 0x1B): split the search path into directory
and mask, resolve the directory to a host path (a failed resolution is only
logged and the partial path is used), intern it, and search the (re)generated
listing from position 0.  A miss replies AX=0x12 ("no more files"). -/
def handleFindfirst (st : SrvState) (root : List Nat) (fat : Bool)
    (payload : List Nat) (now : Int) : Nat × List Nat × SrvState :=
  let fattr := getb payload 0
  let parts := explodepath (payload.drop 1)
  let directory := charreplace 92 47 (root ++ 47 :: lostring parts.1)
  let filemask := lostring parts.2
  let filemaskfcb := filename2fcb filemask
  let flags := (if isrootM root directory then FFILE_ISROOT else 0) |||
    (if fat then FFILE_ISFAT else 0)
  let hostdir := (shorttolongM st.fs directory root).2
  let g := getitemss st.db hostdir now
  if g.1 = 0xffff then (0x12, [], { st with db := g.2 })
  else
    match findfileM st.fs g.2 g.1 filemaskfcb fattr 0 flags with
    | (none, db2) => (0x12, [], { st with db := db2 })
    | (some (p, fpos), db2) => (0, serializeFind p g.1 fpos, { st with db := db2 })

/-- The FINDNEXT branch (query 0x1C): u16 directory id, u16 position, u8
attributes, 11-byte FCB mask; continue the walk after `position`. -/
def handleFindnext (st : SrvState) (root : List Nat) (fat : Bool)
    (payload : List Nat) : Nat × List Nat × SrvState :=
  let dirss := le16 payload 0
  let fpos := le16 payload 2
  let fattr := getb payload 4
  let fcbmask := payload.drop 5
  let flags := (if isrootM root ((sstoitem st.db dirss).getD []) then FFILE_ISROOT else 0) |||
    (if fat then FFILE_ISFAT else 0)
  match findfileM st.fs st.db dirss fcbmask fattr fpos flags with
  | (none, db2) => (0x12, [], { st with db := db2 })
  | (some (p, fpos'), db2) => (0, serializeFind p dirss fpos', { st with db := db2 })

/-- The MKDIR (query 0x03) / RMDIR (query 0x01) branch: the path is resolved
with `shorttolong` — whose failure path still yields a usable host path with
the raw final component appended, which MKDIR relies on — and a failing
mkdir/rmdir replies AX=29 ("general failure"). -/
def handleMkRmdir (mk : Bool) (st : SrvState) (root : List Nat)
    (payload : List Nat) : Nat × List Nat × SrvState :=
  let directory := charreplace 92 47 (root ++ 47 :: lostring payload)
  let host := (shorttolongM st.fs directory root).2
  let r := if mk then makedirM st.fs host else remdirM st.fs host
  (if r.1 ≠ 0 then 29 else 0, [], { st with fs := r.2 })

/-- The CHDIR branch (query 0x05): an existence check; AX=3 ("path not
found") when resolution or `chdir` fails. -/
def handleChdir (st : SrvState) (root : List Nat) (payload : List Nat) :
    Nat × List Nat × SrvState :=
  let directory := charreplace 92 47 (root ++ 47 :: lostring payload)
  let r := shorttolongM st.fs directory root
  if r.1 ≠ 0 then (3, [], st)
  else if changedirM st.fs r.2 ≠ 0 then (3, [], st)
  else (0, [], st)

/-- The SETATTR branch (query 0x0E, payload > 1 byte): u8 attributes then the
path; attributes are only applied on FAT-backed drives, and a failing
resolution or ioctl replies AX=2. -/
def handleSetattr (st : SrvState) (root : List Nat) (fat : Bool)
    (payload : List Nat) : Nat × List Nat × SrvState :=
  let fattr := getb payload 0
  let fullpathname := charreplace 92 47 (root ++ 47 :: lostring (payload.drop 1))
  let r := shorttolongM st.fs fullpathname root
  if r.1 ≠ 0 then (2, [], st)
  else if fat then
    let s := setitemattrM st.fs r.2 fattr
    (if s.1 ≠ 0 then 2 else 0, [], { st with fs := s.2 })
  else (0, [], st)

/-- The GETATTR branch (query 0x0F, non-empty payload): reply the DOS time,
size and attribute byte of the path; AX=2 when it cannot be resolved or
statted. -/
def handleGetattr (st : SrvState) (root : List Nat) (fat : Bool)
    (payload : List Nat) : Nat × List Nat × SrvState :=
  let fullpathname := charreplace 92 47 (root ++ 47 :: lostring payload)
  let r := shorttolongM st.fs fullpathname root
  if r.1 ≠ 0 then (2, [], st)
  else
    let g := getitemattrM st.fs r.2 fat
    if g.1 = 0xff then (2, [], st)
    else (0, le32b g.2.ftime ++ le32b g.2.fsize ++ [g.2.fattr % 256], st)

/-- The RENAME branch (query 0x11, payload > 2 bytes): `L src... dst...`.
The source is resolved with `shorttolong` (on failure only a log line is
emitted and AX stays 0); the destination-existence check is performed on the
unresolved destination path, and an existing destination replies AX=5
without touching anything. -/
def handleRename (st : SrvState) (root : List Nat) (payload : List Nat) :
    Nat × List Nat × SrvState :=
  let fn1len := getb payload 0
  if payload.length > fn1len then
    let fn1 := charreplace 92 47 (root ++ 47 :: lostring ((payload.drop 1).take fn1len))
    let fn2 := charreplace 92 47
      (root ++ 47 :: lostring ((payload.drop (1 + fn1len)).take (payload.length - (1 + fn1len))))
    let r := shorttolongM st.fs fn1 root
    if r.1 ≠ 0 then (0, [], st)
    else if (getitemattrM st.fs fn2 false).1 ≠ 0xff then (5, [], st)
    else
      let rr := renfileM st.fs r.2 fn2
      (if rr.1 ≠ 0 then 5 else 0, [], { st with fs := rr.2 })
  else (2, [], st)

/-- The DELETE branch (query 0x13): resolve the full path with `shorttolong`
(AX=2 on failure), refuse read-only targets (AX=5), then hand the host path
to `delfiles`; a failing `delfiles` replies AX=2. -/
def handleDelete (st : SrvState) (root : List Nat) (fat : Bool)
    (payload : List Nat) : Nat × List Nat × SrvState :=
  let fullpathname := charreplace 92 47 (root ++ 47 :: lostring payload)
  let r := shorttolongM st.fs fullpathname root
  if r.1 ≠ 0 then (2, [], st)
  else if (getitemattrM st.fs r.2 fat).1 &&& 1 ≠ 0 then (5, [], st)
  else
    let d := delfilesM st.fs r.2
    (if d.1 < 0 then 2 else 0, [], { st with fs := d.2 })

/-- The OPEN (0x16) / CREATE (0x17) / SPOPNFIL (0x2E) branch.  `none` models
the `return(-1)` taken when no usable file id can be obtained. -/
def handleOpen (query : Nat) (st : SrvState) (root : List Nat) (fat : Bool)
    (payload : List Nat) (now : Int) : Option (Nat × List Nat × SrvState) :=
  let stackattr := le16 payload 0
  let actioncode := le16 payload 2
  let spopenOpenmode := le16 payload 4
  let fullpathname := charreplace 92 47 (root ++ 47 :: lostring (payload.drop 6))
  let parts := explodepath (payload.drop 6)
  let directory := charreplace 92 47 (root ++ 47 :: lostring parts.1)
  let rdir := shorttolongM st.fs directory root
  if rdir.1 ≠ 0 ∨ changedirM st.fs rdir.2 ≠ 0 then some (3, [], st)
  else
    let rfull := shorttolongM st.fs fullpathname root
    let fname := if rfull.1 = 0 then copyAfterLastSlash parts.2 rfull.2 else parts.2
    let hostFullpathname := if rfull.1 = 0 then rfull.2 else rdir.2 ++ 47 :: parts.2
    let step : Int × Nat × fileprops × HostFs :=
      if query = 0x17 then
        let c := createfileM st.fs rdir.2 fname (stackattr &&& 0xff) fat
        (c.1, 0, c.2.1, c.2.2)
      else if query = 0x2E then
        let g := getitemattrM st.fs hostFullpathname fat
        if g.1 = 0xff then
          if actioncode &&& 0xf0 = 16 then
            let c := createfileM st.fs rdir.2 fname (stackattr &&& 0xff) fat
            (c.1, if c.1 = 0 then 2 else 0, c.2.1, c.2.2)
          else (1, 0, g.2, st.fs)
        else if g.1 &&& (8 ||| 16) ≠ 0 then (1, 0, g.2, st.fs)
        else if actioncode &&& 0x0f = 1 then (0, 1, g.2, st.fs)
        else if actioncode &&& 0x0f = 2 then
          let c := createfileM st.fs rdir.2 fname (stackattr &&& 0xff) fat
          (c.1, if c.1 = 0 then 3 else 0, c.2.1, c.2.2)
        else (1, 0, g.2, st.fs)
      else
        let g := getitemattrM st.fs hostFullpathname fat
        if g.1 ≠ 0xff ∧ g.1 &&& (8 ||| 16) = 0 then (0, 0, g.2, st.fs)
        else (1, 0, g.2, st.fs)
    let resopenmode :=
      if query = 0x17 then 2
      else if query = 0x2E then spopenOpenmode &&& 0x7f
      else stackattr &&& 0xff
    if step.1 ≠ 0 then some (2, [], { st with fs := step.2.2.2 })
    else
      let fprops := step.2.2.1
      let g := getitemss st.db hostFullpathname now
      if g.1 = 0xffff then none
      else
        some (0,
          fprops.fattr % 256 :: memN fprops.fcbname 11 ++ le32b fprops.ftime ++
            le32b fprops.fsize ++ le16b g.1 ++ le16b step.2.1 ++ [resopenmode % 256],
          { db := g.2, fs := step.2.2.2 })

/-- The SEEKFROMEND branch (query 0x21, 6-byte payload): translate a
seek-from-end offset (positive values are zeroed) into an absolute offset,
clamped at 0; AX=2 when the handle's size cannot be obtained. -/
def handleSkfmend (st : SrvState) (payload : List Nat) :
    Nat × List Nat × SrvState :=
  let offs := int32Of (le32 payload 0)
  let fss := le16 payload 4
  let offs := if offs > 0 then 0 else offs
  let fsize := getfopsizeM st.fs st.db fss
  if fsize < 0 then (2, [], st)
  else
    let offs := offs + fsize
    let offs := if offs < 0 then 0 else offs
    (0, le32b offs.toNat, st)

/-- ethersrv.c `process`: the request dispatcher.  Takes the caller's answer
cache slot, the request frame, the server MAC, the drive roots and FAT
flags, and the server state; returns the C result value (reply length ≥ 60,
or a negative "do not reply" code), the updated answer slot and the updated
state.  A frame shorter than 60 bytes is rejected; a frame matching the
idempotency cache is answered by re-sending the cached reply unchanged; the
headers are then copied with swapped MAC fields, the drive is validated, AX
is zeroed, and the branch selected by the query byte runs. -/
def process (st : SrvState) (answer : AnswSlot) (reqbuff : List Nat)
    (mymac : List Nat) (rootarray : Nat → Option (List Nat))
    (drivesfat : Nat → Bool) (now : Int) : Int × AnswSlot × SrvState :=
  if reqbuff.length < 60 then (-1, answer, st)
  else if cacheHit answer reqbuff then ((answer.len : Int), answer, st)
  else
    let hdr := memN (reqbuff.drop 6) 6 ++ memN mymac 6 ++ memN (reqbuff.drop 12) 48
    let reqdrv := getb reqbuff 58 &&& 31
    let query := getb reqbuff 59
    let payload := reqbuff.drop 60
    if reqdrv < 2 ∨ reqdrv > 25 then
      (-3, { answer with frame := hdr ++ answer.frame.drop 60 }, st)
    else
      match rootarray reqdrv with
      | none => (-3, { answer with frame := hdr ++ answer.frame.drop 60 }, st)
      | some root =>
        let fat := drivesfat reqdrv
        let dispatch : Option (Nat × List Nat × SrvState) :=
          if query = 0x0C then
            let r := handleDiskspace st.fs
            some (r.1, r.2, st)
          else if query = 0x08 ∧ payload.length = 8 then some (handleRead st payload)
          else if query = 0x09 ∧ payload.length ≥ 6 then some (handleWrite st payload)
          else if query = 0x0A ∨ query = 0x0B then some (0, [], st)
          else if query = 0x1B then some (handleFindfirst st root fat payload now)
          else if query = 0x1C then some (handleFindnext st root fat payload)
          else if query = 0x03 ∨ query = 0x01 then
            some (handleMkRmdir (query = 0x03) st root payload)
          else if query = 0x05 then some (handleChdir st root payload)
          else if query = 0x06 then some (0, [], st)
          else if query = 0x0E ∧ payload.length > 1 then some (handleSetattr st root fat payload)
          else if query = 0x0F ∧ payload.length > 0 then some (handleGetattr st root fat payload)
          else if query = 0x11 ∧ payload.length > 2 then some (handleRename st root payload)
          else if query = 0x13 then some (handleDelete st root fat payload)
          else if query = 0x16 ∨ query = 0x17 ∨ query = 0x2E then
            handleOpen query st root fat payload now
          else if query = 0x21 ∧ payload.length = 6 then some (handleSkfmend st payload)
          else none
        match dispatch with
        | none =>
          (-1, { answer with frame := hdr.take 58 ++ [0, 0] ++ answer.frame.drop 60 }, st)
        | some (ax, body, st') =>
          (((60 : Nat) + body.length : Nat),
            { answer with
              frame := hdr.take 58 ++ le16b ax ++ body ++ answer.frame.drop (60 + body.length) },
            st')

/-! ## Verified properties -/

theorem setSlot_same (db : Fsdb) (i : Nat) (v : Slot) : setSlot db i v i = v := by
  simp [setSlot]

theorem setSlot_other (db : Fsdb) (i k : Nat) (v : Slot) (h : ¬ k = i) :
    setSlot db i v k = db k := by
  simp [setSlot, h]

/-- C8: for every DISKSPACE request on a mapped drive, total and free byte
counts are clamped to at most 2 GiB - 1 and right-shifted by 15 bits; the
reply carries AX = 1, BX = total 32-KiB clusters, CX = 32768 bytes per
sector, DX = free 32-KiB clusters, and the reported byte totals BX * 32768
and DX * 32768 never exceed 2 GiB - 1. -/
theorem diskspace_clamped (fs : HostFs) :
    (handleDiskspace fs).1 = 1 ∧
    le16 (handleDiskspace fs).2 0 = (min fs.totalBytes 2147483647) >>> 15 ∧
    le16 (handleDiskspace fs).2 2 = 32768 ∧
    le16 (handleDiskspace fs).2 4 = (min fs.freeBytes 2147483647) >>> 15 ∧
    le16 (handleDiskspace fs).2 0 * 32768 ≤ 2147483647 ∧
    le16 (handleDiskspace fs).2 4 * 32768 ≤ 2147483647 := by
  have hmin : ∀ x : Nat, (if x ≥ 2147483648 then 2147483647 else x) = min x 2147483647 := by
    intro x
    by_cases h : x ≥ 2147483648 <;> simp [h] <;> omega
  have hsh : ∀ x : Nat, x >>> 15 = x / 32768 := by
    intro x
    simp [Nat.shiftRight_eq_div_pow]
  have hle : ∀ (x : Nat) (rest : List Nat), x < 65536 →
      le16 (le16b x ++ rest) 0 = x := by
    intro x rest hx
    simp [le16, le16b, getb]
    omega
  have h1 : (min fs.totalBytes 2147483647) >>> 15 < 65536 := by
    rw [hsh]; omega
  have h2 : (min fs.freeBytes 2147483647) >>> 15 < 65536 := by
    rw [hsh]; omega
  refine ⟨rfl, ?_, ?_, ?_, ?_, ?_⟩
  · simpa [handleDiskspace, diskinfoM, hmin] using
      hle _ _ h1
  · simp [handleDiskspace, diskinfoM, le16, le16b, getb]
  · simp [handleDiskspace, diskinfoM, hmin, le16, le16b, getb]
    rw [hsh]
    omega
  · simpa [handleDiskspace, diskinfoM, hmin,
      hle _ _ h1] using by rw [hsh]; omega
  · simp [handleDiskspace, diskinfoM, hmin, le16, le16b, getb]
    rw [hsh]
    omega

/-- C1: if the answer cache holds a non-empty reply whose sequence byte
(offset 57) equals the request's and whose bytes 0..5 equal the request's
source MAC (bytes 6..11), then for any well-formed frame (length ≥ 60) the
dispatcher returns the cached reply length with the cached slot untouched —
the reply is byte-identical to the previous one — and the server state
(handle cache, cached directory listings, host filesystem) is unchanged: no
operation is re-executed. -/
theorem process_cache_hit (st : SrvState) (answer : AnswSlot) (reqbuff : List Nat)
    (mymac : List Nat) (rootarray : Nat → Option (List Nat))
    (drivesfat : Nat → Bool) (now : Int)
    (hlen : 60 ≤ reqbuff.length)
    (hseq : getb answer.frame 57 = getb reqbuff 57)
    (hmac : ∀ k, k < 6 → getb answer.frame k = getb reqbuff (6 + k))
    (hcached : 0 < answer.len) :
    process st answer reqbuff mymac rootarray drivesfat now =
      ((answer.len : Int), answer, st) := by
  have hhit : cacheHit answer reqbuff = true := by
    simp [cacheHit, hseq]
    constructor
    · intro k hk
      exact hmac k (by simpa using hk)
    · omega
  simp [process, Nat.not_lt.mpr hlen, hhit]

/-- Witness for C1 at a concrete cached reply and request frame. -/
theorem process_cache_hit_witness :
    process ⟨fun _ => emptySlot, ⟨[], 0, 0⟩⟩
        ⟨List.replicate 56 9 ++ [0, 66, 0, 0, 1, 2, 3], 5, 63⟩
        (List.replicate 6 7 ++ List.replicate 6 9 ++ List.replicate 45 4 ++ [66, 2, 12])
        (List.replicate 6 7) (fun _ => none) (fun _ => false) 11 =
      ((63 : Int), ⟨List.replicate 56 9 ++ [0, 66, 0, 0, 1, 2, 3], 5, 63⟩,
        ⟨fun _ => emptySlot, ⟨[], 0, 0⟩⟩) :=
  process_cache_hit _ _ _ _ _ _ _ (by decide) (by decide)
    (by decide) (by decide)

/-- C10: a WRITEFILE request with no data bytes on a valid handle (the slot
holds a name) makes `writefile` return 0 and the branch reply AX = 0 with
bytes-written = 0 even when the truncate of the file to the requested offset
fails: the truncate error leaves the filesystem unchanged and is never
surfaced to the client. -/
theorem writefile_zero_len (st : SrvState) (payload nm : List Nat)
    (hlen : payload.length = 6)
    (hname : (st.db (le16 payload 4)).name = some nm)
    (htrunc : truncateM st.fs nm (le32 payload 0) = none) :
    writefileM st.fs st.db (le16 payload 4) (le32 payload 0) [] = (0, st.fs) ∧
    handleWrite st payload = (0, le16b 0, st) := by
  have hw : writefileM st.fs st.db (le16 payload 4) (le32 payload 0) [] = (0, st.fs) := by
    simp [writefileM, hname, htrunc]
  refine ⟨hw, ?_⟩
  have hdrop : payload.drop 6 = [] := by
    apply List.eq_nil_of_length_eq_zero
    simp [hlen]
  simp [handleWrite, hdrop, hw]

/-- Witness for C10: handle 0 registered for a path missing from the host
filesystem, so the truncate fails, yet the reply is AX = 0, 0 bytes
written. -/
theorem writefile_zero_len_witness :
    writefileM (HostFs.mk [] 0 0)
        (fun k => if k = 0 then ⟨some [120], 3, []⟩ else emptySlot) 0 0 [] =
      (0, HostFs.mk [] 0 0) ∧
    handleWrite ⟨fun k => if k = 0 then ⟨some [120], 3, []⟩ else emptySlot, HostFs.mk [] 0 0⟩
        [0, 0, 0, 0, 0, 0] =
      (0, le16b 0, ⟨fun k => if k = 0 then ⟨some [120], 3, []⟩ else emptySlot, HostFs.mk [] 0 0⟩) :=
  writefile_zero_len
    ⟨fun k => if k = 0 then ⟨some [120], 3, []⟩ else emptySlot, HostFs.mk [] 0 0⟩
    [0, 0, 0, 0, 0, 0] [120] (by decide) (by decide) (by decide)

/-- C9: a READFILE request (opcode 0x08) whose payload after byte 60 is not
exactly 8 bytes long matches no dispatch branch even on a valid mapped
drive: the dispatcher falls through to the unknown-query case and returns
-1, the server state is untouched, and the main loop's cache update zeroes
the slot length, so no reply frame is sent and no DOS error code reaches the
client. -/
theorem readfile_bad_payload (st : SrvState) (answer : AnswSlot)
    (reqbuff : List Nat) (mymac : List Nat) (rootarray : Nat → Option (List Nat))
    (drivesfat : Nat → Bool) (now : Int) (r : List Nat)
    (hlen : 60 ≤ reqbuff.length)
    (hne : ¬ reqbuff.length = 68)
    (hmiss : cacheHit answer reqbuff = false)
    (hq : getb reqbuff 59 = 8)
    (hdrv2 : 2 ≤ getb reqbuff 58 &&& 31)
    (hdrv25 : getb reqbuff 58 &&& 31 ≤ 25)
    (hroot : rootarray (getb reqbuff 58 &&& 31) = some r) :
    (process st answer reqbuff mymac rootarray drivesfat now).1 = -1 ∧
    (process st answer reqbuff mymac rootarray drivesfat now).2.2 = st ∧
    (cacheUpdate (process st answer reqbuff mymac rootarray drivesfat now).2.1
      (process st answer reqbuff mymac rootarray drivesfat now).1 now).len = 0 := by
  have hplen : ¬ reqbuff.length - 60 = 8 := by omega
  simp [process, Nat.not_lt.mpr hlen, hmiss, hq, Nat.not_lt.mpr hdrv2, Nat.not_lt.mpr hdrv25,
    hroot, hplen, cacheUpdate]

/-- Witness for C9: a 61-byte READFILE frame on mapped drive C. -/
theorem readfile_bad_payload_witness :
    (process ⟨fun _ => emptySlot, ⟨[], 0, 0⟩⟩ ⟨[], 0, 0⟩
        (List.replicate 58 0 ++ [2, 8, 0]) [1, 1, 1, 1, 1, 1]
        (fun d => if d = 2 then some [120] else none) (fun _ => false) 0).1 = -1 ∧
    (process ⟨fun _ => emptySlot, ⟨[], 0, 0⟩⟩ ⟨[], 0, 0⟩
        (List.replicate 58 0 ++ [2, 8, 0]) [1, 1, 1, 1, 1, 1]
        (fun d => if d = 2 then some [120] else none) (fun _ => false) 0).2.2 =
      ⟨fun _ => emptySlot, ⟨[], 0, 0⟩⟩ ∧
    (cacheUpdate (process ⟨fun _ => emptySlot, ⟨[], 0, 0⟩⟩ ⟨[], 0, 0⟩
        (List.replicate 58 0 ++ [2, 8, 0]) [1, 1, 1, 1, 1, 1]
        (fun d => if d = 2 then some [120] else none) (fun _ => false) 0).2.1
      (process ⟨fun _ => emptySlot, ⟨[], 0, 0⟩⟩ ⟨[], 0, 0⟩
        (List.replicate 58 0 ++ [2, 8, 0]) [1, 1, 1, 1, 1, 1]
        (fun d => if d = 2 then some [120] else none) (fun _ => false) 0).1 0).len = 0 :=
  readfile_bad_payload _ _ _ _ _ _ _ [120] (by decide) (by decide) (by decide)
    (by decide) (by decide) (by decide) (by decide)

/-- C4: the `findfile` attribute filter.  For mask 0x08 an entry is admitted
exactly when its VOLUME bit is set.  For every other mask value an entry is
admitted iff `(attr_mask ||| (entry_attr &&& 0x16)) = attr_mask`; hence RO
(bit 0) and ARCHIVE (bit 5) bits of the entry never change admission, while
each entry bit selected by 0x16 excludes the entry unless that bit is also
set in the mask. -/
theorem and_or_cancel (e c k : Nat) (h : c &&& k = 0) : (e ||| c) &&& k = e &&& k := by
  apply Nat.eq_of_testBit_eq
  intro i
  have hc := congrArg (fun x => Nat.testBit x i) h
  simp at hc ⊢
  cases hcb : c.testBit i with
  | false => simp [hcb]
  | true =>
    have hk : k.testBit i = false := by simpa [hcb] using hc
    simp [hcb, hk]

theorem and_pow_ne_testBit (e n : Nat) (h : ¬ e &&& 2 ^ n = 0) : e.testBit n = true := by
  by_contra hf
  apply h
  apply Nat.eq_of_testBit_eq
  intro i
  simp [Nat.testBit_two_pow]
  intro hei hni
  subst hni
  exact hf hei

theorem and_pow_eq_testBit (m n : Nat) (h : m &&& 2 ^ n = 0) : m.testBit n = false := by
  have hc := congrArg (fun x => Nat.testBit x n) h
  simpa [Nat.testBit_two_pow] using hc

theorem attr_excluding_bit (m e n : Nat) (hne : ¬ m = 8)
    (h22 : (22 : Nat).testBit n = true) (he : e.testBit n = true)
    (hm : m.testBit n = false) : attrOk m e = false := by
  simp [attrOk, hne]
  intro heq
  have hb := congrArg (fun x => Nat.testBit x n) heq
  simp [he, h22, hm] at hb

theorem findfile_attr_filter (m e : Nat) :
    (m = 8 → (attrOk m e = true ↔ e &&& 8 ≠ 0)) ∧
    (¬ m = 8 →
      (attrOk m e = true ↔ (m ||| (e &&& 0x16)) = m) ∧
      attrOk m (e ||| 1) = attrOk m e ∧
      attrOk m (e ||| 32) = attrOk m e ∧
      (∀ b ∈ [2, 4, 16], e &&& b ≠ 0 → m &&& b = 0 → attrOk m e = false)) := by
  constructor
  · intro h8
    subst h8
    simp [attrOk]
  · intro hne
    refine ⟨by simp [attrOk, hne], ?_, ?_, ?_⟩
    · simp only [attrOk, hne, if_false]
      rw [and_or_cancel e 1 22 (by decide)]
    · simp only [attrOk, hne, if_false]
      rw [and_or_cancel e 32 22 (by decide)]
    · intro b hb hbe hbm
      have hb3 : b = 2 ∨ b = 4 ∨ b = 16 := by simpa using hb
      rcases hb3 with hb2 | hb4 | hb16
      · subst hb2
        exact attr_excluding_bit m e 1 hne (by decide)
          (and_pow_ne_testBit e 1 (by simpa using hbe))
          (and_pow_eq_testBit m 1 (by simpa using hbm))
      · subst hb4
        exact attr_excluding_bit m e 2 hne (by decide)
          (and_pow_ne_testBit e 2 (by simpa using hbe))
          (and_pow_eq_testBit m 2 (by simpa using hbm))
      · subst hb16
        exact attr_excluding_bit m e 4 hne (by decide)
          (and_pow_ne_testBit e 4 (by simpa using hbe))
          (and_pow_eq_testBit m 4 (by simpa using hbm))

/-- Witness for C4 at mask 0x10 (DIR) and entry attributes 0x03. -/
theorem findfile_attr_filter_witness :
    ((16 : Nat) = 8 → (attrOk 16 3 = true ↔ (3 : Nat) &&& 8 ≠ 0)) ∧
    (¬ (16 : Nat) = 8 →
      (attrOk 16 3 = true ↔ ((16 : Nat) ||| ((3 : Nat) &&& 0x16)) = 16) ∧
      attrOk 16 ((3 : Nat) ||| 1) = attrOk 16 3 ∧
      attrOk 16 ((3 : Nat) ||| 32) = attrOk 16 3 ∧
      (∀ b ∈ [2, 4, 16], (3 : Nat) &&& b ≠ 0 → (16 : Nat) &&& b = 0 →
        attrOk 16 3 = false)) :=
  findfile_attr_filter 16 3

/-- Host filesystem fixture: drive root `/srv` containing the regular file
`file0001.txt` (non-FAT drive, so DOS attributes are synthesized). -/
def fsSrv : HostFs :=
  { entries := [(bytes "/srv", ⟨true, [], 0, 0⟩),
                (bytes "/srv/file0001.txt", ⟨false, [104, 105], 5, 32⟩)],
    totalBytes := 1073741824, freeBytes := 268435456 }

/-- Server state fixture over `fsSrv` with an empty handle cache. -/
def stSrv : SrvState := ⟨fun _ => emptySlot, fsSrv⟩

/-- C6 (code bug): a DELETE request whose path carries the wildcard mask
`FILE????.TXT` on a directory that does contain the matching regular file
`file0001.txt` removes nothing and replies AX = 2: `shorttolong` cannot
resolve the wildcard component (no entry's FCB name equals the mask
literally), so the dispatcher bails out before `delfiles` — whose wildcard
branch would have removed exactly the matching files — is ever called. -/
theorem delete_wildcard_unreachable :
    matchfile2mask (filename2fcb (bytes "file????.txt"))
        (filename2fcb (bytes "file0001.txt")) = 0 ∧
    ¬ statM fsSrv (bytes "/srv/file0001.txt") = none ∧
    (delfilesM fsSrv (bytes "/srv/file????.txt")).1 = 0 ∧
    ¬ (delfilesM fsSrv (bytes "/srv/file????.txt")).2.entries =
        fsSrv.entries ∧
    (handleDelete stSrv (bytes "/srv") false (bytes "\\FILE????.TXT")).1 = 2 ∧
    (handleDelete stSrv (bytes "/srv") false (bytes "\\FILE????.TXT")).2.2.fs = fsSrv := by
  refine ⟨by decide, by decide, by decide, by decide, by decide, by decide⟩

/-- Host filesystem fixture for RENAME: `/srv` holds `a.txt` and `b.txt`. -/
def fsRen : HostFs :=
  { entries := [(bytes "/srv", ⟨true, [], 0, 0⟩),
                (bytes "/srv/a.txt", ⟨false, [97], 1, 32⟩),
                (bytes "/srv/b.txt", ⟨false, [98], 2, 32⟩)],
    totalBytes := 0, freeBytes := 0 }

/-- Host filesystem fixture for RENAME with only the destination `b.txt`. -/
def fsRenNoSrc : HostFs :=
  { entries := [(bytes "/srv", ⟨true, [], 0, 0⟩),
                (bytes "/srv/b.txt", ⟨false, [98], 2, 32⟩)],
    totalBytes := 0, freeBytes := 0 }

/-- The RENAME payload `L src dst` with src `A.TXT` and dst `B.TXT`. -/
def renPayload : List Nat := 5 :: bytes "A.TXT" ++ bytes "B.TXT"

/-- C7 counterexample: a RENAME request whose destination path names the
existing file `b.txt` but whose source path `A.TXT` does not resolve on the
host replies AX = 0, not AX = 5 (the claim as stated is false when the
source is missing; nothing is modified either way). -/
theorem rename_existing_dst_counterexample :
    ¬ statM fsRenNoSrc (bytes "/srv/b.txt") = none ∧
    (handleRename ⟨fun _ => emptySlot, fsRenNoSrc⟩ (bytes "/srv") renPayload).1 = 0 ∧
    ¬ (handleRename ⟨fun _ => emptySlot, fsRenNoSrc⟩ (bytes "/srv") renPayload).1 = 5 := by
  refine ⟨by decide, by decide, by decide⟩

/-- C7 (amended): for every well-formed RENAME request whose source path
resolves on the host and whose destination path — checked unresolved, as the
code does — names an already-existing item, the reply carries AX = 5 and the
server state is unchanged: neither source nor destination is modified,
renamed, or removed. -/
theorem rename_existing_dst (st : SrvState) (root payload : List Nat)
    (hwf : payload.length > getb payload 0)
    (hsrc : (shorttolongM st.fs
      (charreplace 92 47 (root ++ 47 :: lostring ((payload.drop 1).take (getb payload 0))))
      root).1 = 0)
    (hdst : ¬ (getitemattrM st.fs
      (charreplace 92 47 (root ++ 47 :: lostring
        ((payload.drop (1 + getb payload 0)).take (payload.length - (1 + getb payload 0)))))
      false).1 = 0xff) :
    handleRename st root payload = (5, [], st) := by
  have hsrc' := hsrc
  simp only [List.drop_one] at hsrc'
  simp [handleRename, hwf, hsrc', hdst]

/-- Witness for the amended C7: renaming the existing `a.txt` onto the
existing `b.txt` replies AX = 5 and leaves the filesystem untouched. -/
theorem rename_existing_dst_witness :
    handleRename ⟨fun _ => emptySlot, fsRen⟩ (bytes "/srv") renPayload =
      (5, [], ⟨fun _ => emptySlot, fsRen⟩) :=
  rename_existing_dst ⟨fun _ => emptySlot, fsRen⟩ (bytes "/srv") renPayload
    (by decide) (by decide) (by decide)

/-- C5 counterexample: the FCB transform is not idempotent after the first
application.  Rendering `hello.txt` gives the block `HELLO   TXT`; applying
`filename2fcb` to that block gives `HELLOTXT   ` (the base-fill loop skips
the embedded padding spaces and pulls the extension bytes into the base, and
the extension is lost since the block has no dot). -/
theorem fcb_not_idempotent :
    ¬ filename2fcb (filename2fcb (bytes "hello.txt")) =
        filename2fcb (bytes "hello.txt") := by
  decide

/-- C5 (amended): the FCB transform is idempotent only on special blocks.
Re-applying `filename2fcb` to a rendered 11-byte block reproduces it when the
block's 8 base bytes contain no space, dot or NUL and are uppercase-stable
(which every first application's output byte is), and the extension field is
blank — e.g. blocks rendered from 8-character extensionless names.  In
general (see the counterexample) re-application differs from the block. -/
theorem fcb_idempotent_full_base (b0 b1 b2 b3 b4 b5 b6 b7 : Nat)
    (h0 : ¬ b0 = 32 ∧ ¬ b0 = 46 ∧ ¬ b0 = 0 ∧ upchar b0 = b0)
    (h1 : ¬ b1 = 32 ∧ ¬ b1 = 46 ∧ ¬ b1 = 0 ∧ upchar b1 = b1)
    (h2 : ¬ b2 = 32 ∧ ¬ b2 = 46 ∧ ¬ b2 = 0 ∧ upchar b2 = b2)
    (h3 : ¬ b3 = 32 ∧ ¬ b3 = 46 ∧ ¬ b3 = 0 ∧ upchar b3 = b3)
    (h4 : ¬ b4 = 32 ∧ ¬ b4 = 46 ∧ ¬ b4 = 0 ∧ upchar b4 = b4)
    (h5 : ¬ b5 = 32 ∧ ¬ b5 = 46 ∧ ¬ b5 = 0 ∧ upchar b5 = b5)
    (h6 : ¬ b6 = 32 ∧ ¬ b6 = 46 ∧ ¬ b6 = 0 ∧ upchar b6 = b6)
    (h7 : ¬ b7 = 32 ∧ ¬ b7 = 46 ∧ ¬ b7 = 0 ∧ upchar b7 = b7) :
    filename2fcb [b0, b1, b2, b3, b4, b5, b6, b7, 32, 32, 32] =
      [b0, b1, b2, b3, b4, b5, b6, b7, 32, 32, 32] := by
  obtain ⟨h0a, h0b, h0c, h0d⟩ := h0
  obtain ⟨h1a, h1b, h1c, h1d⟩ := h1
  obtain ⟨h2a, h2b, h2c, h2d⟩ := h2
  obtain ⟨h3a, h3b, h3c, h3d⟩ := h3
  obtain ⟨h4a, h4b, h4c, h4d⟩ := h4
  obtain ⟨h5a, h5b, h5c, h5d⟩ := h5
  obtain ⟨h6a, h6b, h6c, h6d⟩ := h6
  obtain ⟨h7a, h7b, h7c, h7d⟩ := h7
  simp [filename2fcb, leadDots, leadDotsF, fillBase, fillBaseF, skipSpaces,
    skipSpacesF, ffwd, ffwdF, getb,
    h0a, h0b, h0c, h0d, h1a, h1b, h1c, h1d, h2a, h2b, h2c, h2d,
    h3a, h3b, h3c, h3d, h4a, h4b, h4c, h4d, h5a, h5b, h5c, h5d,
    h6a, h6b, h6c, h6d, h7a, h7b, h7c, h7d, List.set]

/-- Witness for the amended C5: the block `ABCDEFGH` with blank extension is
a fixed point of `filename2fcb`. -/
theorem fcb_idempotent_full_base_witness :
    filename2fcb [65, 66, 67, 68, 69, 70, 71, 72, 32, 32, 32] =
      [65, 66, 67, 68, 69, 70, 71, 72, 32, 32, 32] :=
  fcb_idempotent_full_base 65 66 67 68 69 70 71 72
    (by decide) (by decide) (by decide) (by decide)
    (by decide) (by decide) (by decide) (by decide)

theorem findfileLoop_eq_find (tmpl : List Nat) (attr : Nat) (isrt : Bool)
    (nth : Nat) :
    ∀ (dl : List fileprops) (n : Nat),
      findfileLoop tmpl attr isrt nth dl n =
        (matchList isrt tmpl attr dl n).find? (fun q => decide (nth < q.2)) := by
  intro dl
  induction dl with
  | nil => intro n; rfl
  | cons p rest ih =>
    intro n
    simp only [findfileLoop, matchList]
    by_cases hskip : n + 1 ≤ nth
    · have hnlt : ¬ nth < n + 1 := by omega
      rw [if_pos hskip]
      by_cases hadm : admissible isrt tmpl attr p
      · rw [if_pos hadm, List.find?_cons_of_neg _ (by simpa using hnlt)]
        exact ih (n + 1)
      · rw [if_neg hadm]
        exact ih (n + 1)
    · have hnlt : nth < n + 1 := by omega
      rw [if_neg hskip]
      by_cases hdot : getb p.fcbname 0 = 46 ∧ isrt
      · have hadm : ¬ admissible isrt tmpl attr p := fun h => h.1 hdot
        rw [if_pos hdot, if_neg hadm]
        exact ih (n + 1)
      · rw [if_neg hdot]
        by_cases hm : matchfile2mask tmpl p.fcbname = 0
        · rw [if_neg (not_not_intro hm)]
          by_cases hat : attrOk attr p.fattr
          · have hadm : admissible isrt tmpl attr p := ⟨hdot, hm, hat⟩
            rw [if_neg (not_not_intro hat), if_pos hadm,
              List.find?_cons_of_pos _ (by simpa using hnlt)]
          · have hadm : ¬ admissible isrt tmpl attr p := fun h => hat h.2.2
            rw [if_pos hat, if_neg hadm]
            exact ih (n + 1)
        · have hadm : ¬ admissible isrt tmpl attr p := fun h => hm h.2.1
          rw [if_pos hm, if_neg hadm]
          exact ih (n + 1)

theorem matchList_pos_gt (isrt : Bool) (tmpl : List Nat) (attr : Nat) :
    ∀ (dl : List fileprops) (n : Nat) (q : fileprops × Nat),
      q ∈ matchList isrt tmpl attr dl n → n < q.2 := by
  intro dl
  induction dl with
  | nil => intro n q hq; simp [matchList] at hq
  | cons p rest ih =>
    intro n q hq
    simp only [matchList] at hq
    by_cases hadm : admissible isrt tmpl attr p
    · rw [if_pos hadm] at hq
      rcases List.mem_cons.mp hq with hq1 | hq2
      · rw [hq1]
        simp
      · have := ih (n + 1) q hq2
        omega
    · rw [if_neg hadm] at hq
      have := ih (n + 1) q hq
      omega

theorem matchList_pairwise (isrt : Bool) (tmpl : List Nat) (attr : Nat) :
    ∀ (dl : List fileprops) (n : Nat),
      (matchList isrt tmpl attr dl n).Pairwise (fun a b => a.2 < b.2) := by
  intro dl
  induction dl with
  | nil => intro n; simp [matchList]
  | cons p rest ih =>
    intro n
    simp only [matchList]
    by_cases hadm : admissible isrt tmpl attr p
    · rw [if_pos hadm]
      apply List.Pairwise.cons
      · intro q hq
        simpa using matchList_pos_gt isrt tmpl attr rest (n + 1) q hq
      · exact ih (n + 1)
    · rw [if_neg hadm]
      exact ih (n + 1)

theorem matchList_length_le (isrt : Bool) (tmpl : List Nat) (attr : Nat) :
    ∀ (dl : List fileprops) (n : Nat),
      (matchList isrt tmpl attr dl n).length ≤ dl.length := by
  intro dl
  induction dl with
  | nil => intro n; simp [matchList]
  | cons p rest ih =>
    intro n
    simp only [matchList]
    by_cases hadm : admissible isrt tmpl attr p
    · rw [if_pos hadm]
      have := ih (n + 1)
      simp
      omega
    · rw [if_neg hadm]
      have := ih (n + 1)
      simp
      omega

theorem increasing_find_tail :
    ∀ (L : List (fileprops × Nat)), L.Pairwise (fun a b => a.2 < b.2) →
      ∀ (nth : Nat) (p : fileprops) (m : Nat),
        L.find? (fun q => decide (nth < q.2)) = some (p, m) →
        L.filter (fun q => decide (m < q.2)) =
          (L.filter (fun q => decide (nth < q.2))).tail ∧ nth < m := by
  intro L
  induction L with
  | nil => intro _ nth p m hh; simp at hh
  | cons a L' ih =>
    intro hpw nth p m hh
    have ha : ∀ b ∈ L', a.2 < b.2 := (List.pairwise_cons.mp hpw).1
    have hpw' := (List.pairwise_cons.mp hpw).2
    by_cases hc : nth < a.2
    · rw [List.find?_cons_of_pos _ (by simpa using hc)] at hh
      have ha2 : a = (p, m) := Option.some.inj hh
      subst ha2
      have hall1 : L'.filter (fun q => decide (m < q.2)) = L' := by
        apply List.filter_eq_self.mpr
        intro b hb
        have := ha b hb
        simp at this ⊢
        omega
      have hall2 : L'.filter (fun q => decide (nth < q.2)) = L' := by
        apply List.filter_eq_self.mpr
        intro b hb
        have := ha b hb
        simp at this ⊢
        omega
      constructor
      · simp [List.filter_cons, hc, hall1, hall2]
      · simpa using hc
    · rw [List.find?_cons_of_neg _ (by simpa using hc)] at hh
      obtain ⟨htail, hnthm⟩ := ih hpw' nth p m hh
      have hmem' : (p, m) ∈ L' := List.mem_of_find?_eq_some hh
      have ham : a.2 < m := ha (p, m) hmem'
      have hnm : ¬ m < a.2 := by omega
      constructor
      · simp [List.filter_cons, hc, hnm, htail]
      · exact hnthm

theorem ffChainF_eq (dl : List fileprops) (tmpl : List Nat) (attr : Nat)
    (isrt : Bool) :
    ∀ (fuel nth : Nat),
      ((matchList isrt tmpl attr dl 0).filter
        (fun q => decide (nth < q.2))).length < fuel →
      ffChainF dl tmpl attr isrt fuel nth =
        (matchList isrt tmpl attr dl 0).filter (fun q => decide (nth < q.2)) := by
  intro fuel
  induction fuel with
  | zero => intro nth h; exact absurd h (Nat.not_lt_zero _)
  | succ f ih =>
    intro nth hlen
    have hloop := findfileLoop_eq_find tmpl attr isrt nth dl 0
    cases hh : (matchList isrt tmpl attr dl 0).find? (fun q => decide (nth < q.2)) with
    | none =>
      have hfil : (matchList isrt tmpl attr dl 0).filter
          (fun q => decide (nth < q.2)) = [] := by
        apply List.filter_eq_nil_iff.mpr
        intro q hq
        exact List.find?_eq_none.mp hh q hq
      simp [ffChainF, findfileList, hloop, hh, hfil]
    | some pm =>
      obtain ⟨p, m⟩ := pm
      obtain ⟨htail, hnm⟩ :=
        increasing_find_tail (matchList isrt tmpl attr dl 0)
          (matchList_pairwise isrt tmpl attr dl 0) nth p m hh
      cases hfl : (matchList isrt tmpl attr dl 0).filter
          (fun q => decide (nth < q.2)) with
      | nil =>
        have hht := List.filter_head? (fun q => decide (nth < q.2))
          (matchList isrt tmpl attr dl 0)
        rw [hfl, hh] at hht
        simp at hht
      | cons x t =>
        have hht := List.filter_head? (fun q => decide (nth < q.2))
          (matchList isrt tmpl attr dl 0)
        rw [hfl, hh] at hht
        simp at hht
        have hlen2 : ((matchList isrt tmpl attr dl 0).filter
            (fun q => decide (m < q.2))).length < f := by
          rw [htail, hfl]
          rw [hfl] at hlen
          simp at hlen ⊢
          omega
        have hrec := ih m hlen2
        rw [htail, hfl] at hrec
        simp only [List.tail_cons] at hrec
        simp [ffChainF, findfileList, hloop, hh, hfl, hrec, hht]

/-- C2: over an unchanged cached directory listing, the walk that starts
with a FINDFIRST (position 0) and feeds each returned `(dir-id, pos)` back
into FINDNEXT with the same FCB mask and attribute byte — i.e. the iteration
of `findfile` on the listing — returns exactly the admissible entries of the
listing, in listing order, each with its 1-based position, and then misses
(the first AX = 0x12 reply): every matching entry is visited exactly once,
none repeated, none skipped. -/
theorem findfirst_findnext_walk (dl : List fileprops) (tmpl : List Nat)
    (attr : Nat) (isrt : Bool) :
    ffChain dl tmpl attr isrt = matchList isrt tmpl attr dl 0 := by
  rw [ffChain]
  have hfull : (matchList isrt tmpl attr dl 0).filter
      (fun q => decide ((0 : Nat) < q.2)) = matchList isrt tmpl attr dl 0 := by
    apply List.filter_eq_self.mpr
    intro q hq
    simp
    exact matchList_pos_gt isrt tmpl attr dl 0 q hq
  have hlen : ((matchList isrt tmpl attr dl 0).filter
      (fun q => decide ((0 : Nat) < q.2))).length < dl.length + 1 := by
    calc ((matchList isrt tmpl attr dl 0).filter
        (fun q => decide ((0 : Nat) < q.2))).length
        ≤ (matchList isrt tmpl attr dl 0).length := List.length_filter_le _ _
      _ ≤ dl.length := matchList_length_le isrt tmpl attr dl 0
      _ < dl.length + 1 := by omega
  rw [ffChainF_eq dl tmpl attr isrt (dl.length + 1) 0 hlen, hfull]

theorem scanF_finds (f : List Nat) (now : Int) (id : Nat) :
    ∀ (fuel i : Nat) (db : Fsdb) (ff old : Nat),
      i + fuel = 65535 → i ≤ id → id < 65535 →
      (db id).name = some f →
      (∀ k, i ≤ k → k < id → ¬ (db k).name = some f) →
      ∃ db', scanF f now fuel db i ff old = .found id db' ∧
        db' id = { db id with lastused := now } ∧
        (∀ k, ¬ k = id → db' k = db k ∨ db' k = emptySlot) := by
  intro fuel
  induction fuel with
  | zero =>
    intro i db ff old hsum hile hidlt _ _
    omega
  | succ fl ih =>
    intro i db ff old hsum hile hidlt hname hbefore
    by_cases hi : i = id
    · subst hi
      refine ⟨setSlot db i { db i with lastused := now }, ?_, ?_, ?_⟩
      · simp only [scanF, hname, if_pos]
      · exact setSlot_same _ _ _
      · intro k hk
        left
        exact setSlot_other _ _ _ _ hk
    · have hmiss : ¬ (db i).name = some f := hbefore i (Nat.le_refl i) (by omega)
      have hstep : scanF f now (fl + 1) db i ff old =
          scanF f now fl
            (if now - (db i).lastused > 3600 then setSlot db i emptySlot else db) (i + 1)
            (if ff = 0xffff ∧
                ((if now - (db i).lastused > 3600 then setSlot db i emptySlot else db) i).name = none
              then i else ff)
            (if ¬ (ff = 0xffff ∧
                ((if now - (db i).lastused > 3600 then setSlot db i emptySlot else db) i).name = none) ∧
                ((if now - (db i).lastused > 3600 then setSlot db i emptySlot else db) old).lastused >
                ((if now - (db i).lastused > 3600 then setSlot db i emptySlot else db) i).lastused
              then i else old) := by
        simp only [scanF, hmiss, if_neg, if_false]
      set db1 := if now - (db i).lastused > 3600 then setSlot db i emptySlot else db with hdb1
      have hdb1k : ∀ k, ¬ k = i → db1 k = db k := by
        intro k hk
        rw [hdb1]
        by_cases hage : now - (db i).lastused > 3600
        · simp [hage, setSlot_other _ _ _ _ hk]
        · simp [hage]
      have hname1 : (db1 id).name = some f := by
        rw [hdb1k id (by omega)]
        exact hname
      have hbefore1 : ∀ k, i + 1 ≤ k → k < id → ¬ (db1 k).name = some f := by
        intro k hk1 hk2
        rw [hdb1k k (by omega)]
        exact hbefore k (by omega) hk2
      obtain ⟨db', h1, h2, h3⟩ := ih (i + 1) db1 _ _ (by omega) (by omega) hidlt hname1 hbefore1
      refine ⟨db', ?_, ?_, ?_⟩
      · rw [hstep, h1]
      · rw [h2]
        rw [hdb1k id (by omega)]
      · intro k hk
        rcases h3 k hk with hkk | hkk
        · by_cases hki : k = i
          · subst hki
            rw [hkk, hdb1]
            by_cases hage : now - (db k).lastused > 3600
            · right
              simp [hage, setSlot_same]
            · left
              simp [hage]
          · left
            rw [hkk, hdb1k k hki]
        · right
          exact hkk

theorem scanF_found_inv (f : List Nat) (now : Int) :
    ∀ (fuel i : Nat) (db : Fsdb) (ff old j : Nat) (db' : Fsdb),
      scanF f now fuel db i ff old = .found j db' →
      i ≤ j ∧ j < i + fuel ∧ (db' j).name = some f ∧
        (∀ k, i ≤ k → k < j → ¬ (db' k).name = some f) ∧
        (∀ k, k < i → db' k = db k) := by
  intro fuel
  induction fuel with
  | zero =>
    intro i db ff old j db' h
    simp [scanF] at h
  | succ fl ih =>
    intro i db ff old j db' h
    by_cases hname : (db i).name = some f
    · simp only [scanF, hname, if_pos] at h
      injection h with hj hdb
      subst hj
      subst hdb
      refine ⟨Nat.le_refl i, by omega, ?_, ?_, ?_⟩
      · rw [setSlot_same]
      · intro k hk1 hk2
        omega
      · intro k hk
        exact setSlot_other _ _ _ _ (by omega)
    · simp only [scanF, hname, if_neg, if_false] at h
      set db1 := if now - (db i).lastused > 3600 then setSlot db i emptySlot else db with hdb1
      obtain ⟨hij, hjlt, hnm, hbef, hunt⟩ := ih (i + 1) db1 _ _ j db' h
      have hdb1k : ∀ k, ¬ k = i → db1 k = db k := by
        intro k hk
        rw [hdb1]
        by_cases hage : now - (db i).lastused > 3600
        · simp [hage, setSlot_other _ _ _ _ hk]
        · simp [hage]
      refine ⟨by omega, by omega, hnm, ?_, ?_⟩
      · intro k hk1 hk2
        by_cases hki : k = i
        · subst hki
          rw [hunt k (by omega)]
          rw [hdb1]
          by_cases hage : now - (db k).lastused > 3600
          · simp [hage, setSlot_same, emptySlot]
          · simp [hage]
            exact hname
        · exact hbef k (by omega) hk2
      · intro k hk
        rw [hunt k (by omega), hdb1k k (by omega)]

theorem scanF_done_inv (f : List Nat) (now : Int) :
    ∀ (fuel i : Nat) (db : Fsdb) (ff old ff2 old2 : Nat) (db' : Fsdb),
      scanF f now fuel db i ff old = .done ff2 old2 db' →
      (∀ k, i ≤ k → k < i + fuel → ¬ (db' k).name = some f) ∧
        (∀ k, k < i → db' k = db k) ∧
        (old2 = old ∨ (i ≤ old2 ∧ old2 < i + fuel)) ∧
        (ff2 = ff ∨ (i ≤ ff2 ∧ ff2 < i + fuel)) := by
  intro fuel
  induction fuel with
  | zero =>
    intro i db ff old ff2 old2 db' h
    simp [scanF] at h
    obtain ⟨h1, h2, h3⟩ := h
    subst h1
    subst h2
    subst h3
    refine ⟨by omega, fun k _ => rfl, Or.inl rfl, Or.inl rfl⟩
  | succ fl ih =>
    intro i db ff old ff2 old2 db' h
    by_cases hname : (db i).name = some f
    · simp [scanF, hname] at h
    · simp only [scanF, hname, if_neg, if_false] at h
      set db1 := if now - (db i).lastused > 3600 then setSlot db i emptySlot else db with hdb1
      obtain ⟨hafter, hunt, hold, hff⟩ := ih (i + 1) db1 _ _ ff2 old2 db' h
      have hdb1k : ∀ k, ¬ k = i → db1 k = db k := by
        intro k hk
        rw [hdb1]
        by_cases hage : now - (db i).lastused > 3600
        · simp [hage, setSlot_other _ _ _ _ hk]
        · simp [hage]
      refine ⟨?_, ?_, ?_, ?_⟩
      · intro k hk1 hk2
        by_cases hki : k = i
        · subst hki
          rw [hunt k (by omega)]
          rw [hdb1]
          by_cases hage : now - (db k).lastused > 3600
          · simp [hage, setSlot_same, emptySlot]
          · simp [hage]
            exact hname
        · exact hafter k (by omega) (by omega)
      · intro k hk
        rw [hunt k (by omega), hdb1k k (by omega)]
      · rcases hold with hold | hold
        · by_cases hcase : ¬ (ff = 0xffff ∧ (db1 i).name = none) ∧
              (db1 old).lastused > (db1 i).lastused
          · rw [if_pos hcase] at hold
            right
            omega
          · rw [if_neg hcase] at hold
            left
            exact hold
        · right
          omega
      · rcases hff with hff | hff
        · by_cases hcase : ff = 0xffff ∧ (db1 i).name = none
          · rw [if_pos hcase] at hff
            right
            omega
          · rw [if_neg hcase] at hff
            left
            exact hff
        · right
          omega

theorem getitemss_registers (db : Fsdb) (f : List Nat) (now : Int) :
    ((getitemss db f now).2 (getitemss db f now).1).name = some f ∧
    (getitemss db f now).1 < 65535 ∧
    (∀ k, k < (getitemss db f now).1 →
      ¬ ((getitemss db f now).2 k).name = some f) := by
  cases hscan : scanF f now 65535 db 0 0xffff 0 with
  | found j db' =>
    obtain ⟨_, hlt, hnm, hbef, _⟩ := scanF_found_inv f now 65535 0 db 0xffff 0 j db' hscan
    simp only [getitemss, hscan]
    exact ⟨hnm, by omega, fun k hk => hbef k (by omega) hk⟩
  | done ff2 old2 db' =>
    obtain ⟨hafter, _, hold, hff⟩ := scanF_done_inv f now 65535 0 db 0xffff 0 ff2 old2 db' hscan
    simp only [getitemss, hscan]
    have hold65 : old2 < 65535 := by omega
    by_cases hffc : ff2 = 0xffff
    · have hidx : old2 < 65535 := hold65
      refine ⟨?_, ?_, ?_⟩
      · simp only [hffc, if_pos]
        rw [setSlot_same]
      · simp only [hffc, if_pos]
        exact hidx
      · intro k hk
        simp only [hffc, if_pos] at hk ⊢
        rw [setSlot_other _ _ _ _ (by omega)]
        by_cases hko : k = old2
        · subst hko
          rw [setSlot_same]
          simp [emptySlot]
        · rw [setSlot_other _ _ _ _ hko]
          exact hafter k (by omega) (by omega)
    · have hidx : ff2 < 65535 := by
        rcases hff with hff | hff
        · exact absurd hff hffc
        · omega
      refine ⟨?_, ?_, ?_⟩
      · simp only [hffc, if_neg, if_false]
        rw [setSlot_same]
      · simp only [hffc, if_neg, if_false]
        exact hidx
      · intro k hk
        simp only [hffc, if_neg, if_false] at hk ⊢
        rw [setSlot_other _ _ _ _ (by omega)]
        exact hafter k (by omega) (by omega)

/-- C3: interning a path `P` a second time within the 3600-second aging
window returns the same 16-bit id as the first call without allocating a new
slot — the second call merely refreshes the slot's `lastused`; every other
slot keeps its name or is aged away, and none acquires one — and `sstoitem`
applied to that id returns `P` after either call. -/
theorem intern_idempotent (db : Fsdb) (f : List Nat) (now now2 : Int)
    (_hmono : now ≤ now2) (_hwin : now2 - now ≤ 3600) :
    (getitemss ((getitemss db f now).2) f now2).1 = (getitemss db f now).1 ∧
    sstoitem (getitemss db f now).2 (getitemss db f now).1 = some f ∧
    sstoitem (getitemss ((getitemss db f now).2) f now2).2
      (getitemss db f now).1 = some f ∧
    (∀ k, ((getitemss ((getitemss db f now).2) f now2).2 k).name =
        ((getitemss db f now).2 k).name ∨
      ((getitemss ((getitemss db f now).2) f now2).2 k).name = none) := by
  obtain ⟨hreg, hlt, hbef⟩ := getitemss_registers db f now
  set id := (getitemss db f now).1 with hid
  set db1 := (getitemss db f now).2 with hdb1
  obtain ⟨db2, hfound, hslot, hrest⟩ :=
    scanF_finds f now2 id 65535 0 db1 0xffff 0 (by omega) (by omega) hlt hreg
      (fun k _ hk => hbef k hk)
  have hsecond : getitemss db1 f now2 = (id, db2) := by
    rw [getitemss, hfound]
  have hname2 : (db2 id).name = (db1 id).name := by rw [hslot]
  refine ⟨by rw [hsecond], hreg, ?_, ?_⟩
  · rw [hsecond]
    show (db2 id).name = some f
    rw [hname2]
    exact hreg
  · intro k
    rw [hsecond]
    show (db2 k).name = (db1 k).name ∨ (db2 k).name = none
    by_cases hk : k = id
    · subst hk
      left
      exact hname2
    · rcases hrest k hk with hr | hr
      · left
        rw [hr]
      · right
        rw [hr]
        simp [emptySlot]

/-- Witness for C3: a table whose slot 0 already holds the path, interned
twice at time 0. -/
theorem intern_idempotent_witness :
    ((getitemss ((getitemss (fun k => if k = 0 then ⟨some [112], 0, []⟩ else emptySlot)
        [112] 0).2) [112] 0).1 =
      (getitemss (fun k => if k = 0 then ⟨some [112], 0, []⟩ else emptySlot) [112] 0).1) ∧
    sstoitem (getitemss (fun k => if k = 0 then ⟨some [112], 0, []⟩ else emptySlot)
        [112] 0).2
      (getitemss (fun k => if k = 0 then ⟨some [112], 0, []⟩ else emptySlot) [112] 0).1 =
      some [112] ∧
    sstoitem (getitemss ((getitemss (fun k => if k = 0 then ⟨some [112], 0, []⟩ else emptySlot)
        [112] 0).2) [112] 0).2
      (getitemss (fun k => if k = 0 then ⟨some [112], 0, []⟩ else emptySlot) [112] 0).1 =
      some [112] ∧
    (∀ k, ((getitemss ((getitemss (fun k => if k = 0 then ⟨some [112], 0, []⟩ else emptySlot)
          [112] 0).2) [112] 0).2 k).name =
        ((getitemss (fun k => if k = 0 then ⟨some [112], 0, []⟩ else emptySlot) [112] 0).2 k).name ∨
      ((getitemss ((getitemss (fun k => if k = 0 then ⟨some [112], 0, []⟩ else emptySlot)
          [112] 0).2) [112] 0).2 k).name = none) :=
  intern_idempotent (fun k => if k = 0 then ⟨some [112], 0, []⟩ else emptySlot)
    [112] 0 0 (by omega) (by omega)
